import Mathlib

/-!
# managed-prometheusrules: the rule reconciler

A shallow embedding of `internal/controllers/rule_types.go` and
`internal/controllers/rule_controller.go`.

* Go structs become Lean structures with the same field names.
* A Go `map[string]string` is an optional association list: `none` is the nil
  map, `some l` a map whose entries are those of `l` (lookup takes the first
  entry of a key).
* The Kubernetes client embedded in `RuleReconciler` is explicit state, a
  `Cluster`: the persisted objects, a script of injected API failures and the
  log of the API requests issued so far.
* The libraries the controller calls (regexp, encoding/json, os.ReadFile,
  go-jsonnet) are the fields of `Env`.
* A Go panic (`regexp.MustCompile` on a malformed expression) is an explicit
  outcome.
-/

namespace ManagedRules

/-! ## Data model -/

/-- Errors returned by the API client and the libraries. -/
inductive Error where
  | notFound
  | alreadyExists
  | conflict
  | other (msg : String)
  deriving DecidableEq, Repr

/-- The part of `metav1.ObjectMeta` the controller reads or writes, and the
resource version as the representative of the fields it only carries along. -/
structure ObjectMeta where
  Name : String
  Namespace : String
  ResourceVersion : String
  Annotations : Option (List (String × String))
  deriving DecidableEq, Repr

/-- Type `monitoringv1.Rule`: one alerting or recording rule. -/
structure Rule where
  Record : String
  Alert : String
  Expr : String
  Labels : Option (List (String × String))
  deriving DecidableEq, Repr

/-- Type `monitoringv1.RuleGroup`. -/
structure RuleGroup where
  Name : String
  Rules : List Rule
  deriving DecidableEq, Repr

/-- Type `monitoringv1.PrometheusRuleSpec`. -/
structure PrometheusRuleSpec where
  Groups : List RuleGroup
  deriving DecidableEq, Repr

/-- Type `monitoringv1.PrometheusRule`. -/
structure PrometheusRule where
  ObjectMeta : ObjectMeta
  Spec : PrometheusRuleSpec
  deriving DecidableEq, Repr

/-- Type `types.NamespacedName`, the key of a reconcile request. -/
structure NamespacedName where
  Namespace : String
  Name : String
  deriving DecidableEq, Repr

/-- Type `ctrl.Request`. -/
structure Request where
  NamespacedName : NamespacedName
  deriving DecidableEq, Repr

/-- Type `ctrl.Result`. -/
structure Result where
  Requeue : Bool
  RequeueAfter : Nat
  deriving DecidableEq, Repr

/-- The zero value `ctrl.Result{}`. -/
def Result.empty : Result := ⟨false, 0⟩

/-- The configuration fields of `RuleReconciler` (the embedded client is the
`Cluster` passed alongside). -/
structure RuleReconciler where
  ManagedNamespace : String
  WatchedNamespaces : List String
  WatchedRegex : String
  DryRun : Bool
  ExternalParser : String
  ExternalParams : String
  deriving DecidableEq, Repr

/-- Indexing a Go map: the value and whether the key is present. -/
def mapGet (m : Option (List (String × String))) (k : String) : Option String :=
  match m with
  | none => none
  | some l => l.lookup k

def PrometheusRule.GetName (r : PrometheusRule) : String := r.ObjectMeta.Name

def PrometheusRule.GetNamespace (r : PrometheusRule) : String := r.ObjectMeta.Namespace

def PrometheusRule.GetAnnotations (r : PrometheusRule) : Option (List (String × String)) :=
  r.ObjectMeta.Annotations

/-- The key under which the API server stores an object. -/
def PrometheusRule.key (r : PrometheusRule) : NamespacedName :=
  ⟨r.ObjectMeta.Namespace, r.ObjectMeta.Name⟩

/-! ## rule_types.go -/

def managedRuleOwnerName : String := "managedrules.appuio.io/upstream-rule-name"

def managedRuleOwnerNamespace : String := "managedrules.appuio.io/upstream-rule-namespace"

def hasOwnerAnnotations (r : PrometheusRule) : Bool :=
  let hasOwnerName := (mapGet r.GetAnnotations managedRuleOwnerName).isSome
  let hasOwnerNamespace := (mapGet r.GetAnnotations managedRuleOwnerNamespace).isSome
  hasOwnerName && hasOwnerNamespace

def getOwnerName (r : PrometheusRule) : String :=
  (mapGet r.GetAnnotations managedRuleOwnerName).getD ""

def getOwnerNamespace (r : PrometheusRule) : String :=
  (mapGet r.GetAnnotations managedRuleOwnerNamespace).getD ""

def isOwndeBy (r by' : PrometheusRule) : Bool :=
  let hasOwnerName := getOwnerName r == by'.GetName
  let hasOwnerNamespace := getOwnerNamespace r == by'.GetNamespace
  hasOwnerName && hasOwnerNamespace

/-- The SHA-1 hasher of the source is fed the name and never read; the result
is `fmt.Sprintf("%s-%s", namespace, name)`. -/
def hashedName (r : PrometheusRule) : String :=
  r.GetNamespace ++ "-" ++ r.GetName

/-! ## Libraries -/

/-- The libraries called by the controller.

* `Compile` is `regexp.Compile`: `none` for a malformed expression, else the
  compiled expression as its `MatchString`.
* `Marshal` is `json.Marshal` on a rule spec, `Unmarshal` is `json.Unmarshal`
  into a rule spec.
* `ReadFile` is `os.ReadFile`.
* `Evaluate rule params name snippet` is `EvaluateAnonymousSnippet name snippet`
  on a jsonnet VM whose external code `rule` is set, and `params` when given.
* `defaultParser` is the embedded file `default_parser.jsonnet`. -/
structure Env where
  Compile : String → Option (String → Bool)
  Marshal : PrometheusRuleSpec → Except Error String
  ReadFile : String → Except Error String
  Evaluate : String → Option String → String → String → Except Error String
  Unmarshal : String → Except Error PrometheusRuleSpec
  defaultParser : String

/-! ## The classifier -/

def ruleTypeOwned : String := "owned"

def ruleTypeWatched : String := "watched"

def ruleTypeIgnore : String := "ignored"

/-- The classifier. `none` is the panic of `regexp.MustCompile`. -/
def ruleType (env : Env) (r : RuleReconciler) (rule : PrometheusRule) : Option String :=
  match env.Compile r.WatchedRegex with
  | none => none
  | some x =>
    let hasRegex := r.WatchedRegex != ""
    if rule.GetNamespace = r.ManagedNamespace then some ruleTypeOwned
    else if r.WatchedNamespaces.contains rule.GetNamespace then some ruleTypeWatched
    else if hasRegex && x rule.GetNamespace then some ruleTypeWatched
    else if r.WatchedRegex == "" && decide (r.WatchedNamespaces.length < 1) then
      some ruleTypeWatched
    else some ruleTypeIgnore

/-! ## The API client

The API server is an in-memory store of `PrometheusRule` objects keyed by
namespace and name. Every request is logged, then consumes one entry of the
failure script: `some e` makes the request fail with `e` and change nothing,
`none` (or an exhausted script) lets the server answer. A request whose
options carry the dry-run directive is validated and not persisted. Objects
are stored as submitted. -/

/-- Type `client.CreateOptions`. -/
structure CreateOptions where
  DryRun : List String
  deriving DecidableEq, Repr

/-- Type `client.UpdateOptions`. -/
structure UpdateOptions where
  DryRun : List String
  deriving DecidableEq, Repr

/-- Type `client.DeleteOptions`, as collected from the variadic options of
`Delete`. -/
structure DeleteOptions where
  DryRun : List String
  deriving DecidableEq, Repr

/-- A request sent to the API server. -/
inductive Call where
  | get (key : NamespacedName)
  | list (ns : String)
  | create (obj : PrometheusRule) (opts : CreateOptions)
  | update (obj : PrometheusRule) (opts : UpdateOptions)
  | delete (obj : PrometheusRule) (opts : DeleteOptions)
  deriving DecidableEq, Repr

/-- The state behind the client. -/
structure Cluster where
  objects : List PrometheusRule
  faults : List (Option Error)
  calls : List Call
  deriving DecidableEq, Repr

/-- Log a request and consume one entry of the failure script. -/
def Cluster.issue (c : Cluster) (call : Call) : Cluster :=
  { c with faults := c.faults.tail, calls := c.calls ++ [call] }

/-- The injected failure of the next request, if any. -/
def Cluster.fault (c : Cluster) : Option Error := c.faults.head?.join

/-- Whether the request options carry the server-side dry-run directive. -/
def isDryRun (dryRun : List String) : Bool := dryRun.contains "All"

def Cluster.lookup (c : Cluster) (key : NamespacedName) : Option PrometheusRule :=
  c.objects.find? (fun o => o.key == key)

def Cluster.Get (c : Cluster) (key : NamespacedName) : Except Error PrometheusRule × Cluster :=
  let c1 := c.issue (.get key)
  match c.fault with
  | some e => (.error e, c1)
  | none =>
    match c.lookup key with
    | some o => (.ok o, c1)
    | none => (.error .notFound, c1)

/-- List with `client.ListOptions{Namespace: ns}`: the objects of the namespace
`ns`, and the objects of every namespace when `ns` is the empty string. -/
def Cluster.List (c : Cluster) (ns : String) : Except Error (List PrometheusRule) × Cluster :=
  let c1 := c.issue (.list ns)
  match c.fault with
  | some e => (.error e, c1)
  | none =>
    (.ok (if ns == "" then c.objects else c.objects.filter (fun o => o.GetNamespace == ns)), c1)

def Cluster.Create (c : Cluster) (obj : PrometheusRule) (opts : CreateOptions) :
    Option Error × Cluster :=
  let c1 := c.issue (.create obj opts)
  match c.fault with
  | some e => (some e, c1)
  | none =>
    if (c.lookup obj.key).isSome then (some .alreadyExists, c1)
    else if isDryRun opts.DryRun then (none, c1)
    else (none, { c1 with objects := c.objects ++ [obj] })

def Cluster.Update (c : Cluster) (obj : PrometheusRule) (opts : UpdateOptions) :
    Option Error × Cluster :=
  let c1 := c.issue (.update obj opts)
  match c.fault with
  | some e => (some e, c1)
  | none =>
    if (c.lookup obj.key).isNone then (some .notFound, c1)
    else if isDryRun opts.DryRun then (none, c1)
    else (none, { c1 with
      objects := c.objects.map (fun o => if o.key == obj.key then obj else o) })

def Cluster.Delete (c : Cluster) (obj : PrometheusRule) (opts : DeleteOptions) :
    Option Error × Cluster :=
  let c1 := c.issue (.delete obj opts)
  match c.fault with
  | some e => (some e, c1)
  | none =>
    if (c.lookup obj.key).isNone then (some .notFound, c1)
    else if isDryRun opts.DryRun then (none, c1)
    else (none, { c1 with objects := c.objects.filter (fun o => !(o.key == obj.key)) })

/-- Function `client.IgnoreNotFound`. -/
def IgnoreNotFound (err : Error) : Option Error :=
  match err with
  | .notFound => none
  | e => some e

/-! ## The transformer -/

def parseWatchedRuleWithMetadata (env : Env) (r : RuleReconciler)
    (watchedRule : PrometheusRule) (meta : ObjectMeta) : Except Error PrometheusRule :=
  match env.Marshal watchedRule.Spec with
  | .error err => .error err
  | .ok watchedJson =>
    match (if r.ExternalParams != "" then (env.ReadFile r.ExternalParams).map some
           else .ok none) with
    | .error err => .error err
    | .ok params =>
      match (if r.ExternalParser != "" then
               (env.ReadFile r.ExternalParser).map (fun snippet => (r.ExternalParser, snippet))
             else .ok ("default_parser.jsonnet", env.defaultParser)) with
      | .error err => .error err
      | .ok (parserName, parserSnippet) =>
        match env.Evaluate watchedJson params parserName parserSnippet with
        | .error err => .error err
        | .ok output =>
          match env.Unmarshal output with
          | .error err => .error err
          | .ok specs => .ok { ObjectMeta := meta, Spec := specs }

def parseWatchedRule (env : Env) (r : RuleReconciler) (watchedRule : PrometheusRule) :
    Except Error PrometheusRule :=
  parseWatchedRuleWithMetadata env r watchedRule
    { Name := hashedName watchedRule
      Namespace := r.ManagedNamespace
      ResourceVersion := ""
      Annotations := some [(managedRuleOwnerName, watchedRule.GetName),
                           (managedRuleOwnerNamespace, watchedRule.GetNamespace)] }

/-- The transformer in the words of the specification (section 4.4): serialise
the watched spec as the binding `rule`; read the parameter file as the binding
`params` when one is configured; take the program at `externalParser` when set
and the built-in `default_parser.jsonnet` otherwise; evaluate; parse the output
as a rule spec. -/
def transformer (env : Env) (r : RuleReconciler) (spec : PrometheusRuleSpec) :
    Except Error PrometheusRuleSpec := do
  let rule ← env.Marshal spec
  let params ← if r.ExternalParams = "" then pure none
               else some <$> env.ReadFile r.ExternalParams
  let program ← if r.ExternalParser = "" then pure env.defaultParser
                else env.ReadFile r.ExternalParser
  let name := if r.ExternalParser = "" then "default_parser.jsonnet" else r.ExternalParser
  let output ← env.Evaluate rule params name program
  env.Unmarshal output

/-! ## The reconciler -/

/-- How a call of the reconciler ends: a panic, or a return of `(ctrl.Result, error)`. -/
inductive Outcome where
  | panic
  | ret (result : Result) (err : Option Error)
  deriving DecidableEq, Repr

def createNewFromWatched (env : Env) (r : RuleReconciler) (c : Cluster)
    (watchedRule : PrometheusRule) : Outcome × Cluster :=
  match parseWatchedRule env r watchedRule with
  | .error err => (.ret Result.empty (some err), c)
  | .ok ownedRule =>
    let opts : CreateOptions := if r.DryRun then { DryRun := ["All"] } else { DryRun := [] }
    match c.Create ownedRule opts with
    | (some err, c1) => (.ret Result.empty (some err), c1)
    | (none, c1) => (.ret Result.empty none, c1)

def updateFromWatched (env : Env) (r : RuleReconciler) (c : Cluster)
    (ownedRule watchedRule : PrometheusRule) : Outcome × Cluster :=
  match parseWatchedRuleWithMetadata env r watchedRule ownedRule.ObjectMeta with
  | .error err => (.ret Result.empty (some err), c)
  | .ok ownedRule =>
    let opts : UpdateOptions := if r.DryRun then { DryRun := ["All"] } else { DryRun := [] }
    match c.Update ownedRule opts with
    | (some err, c1) => (.ret Result.empty (some err), c1)
    | (none, c1) => (.ret Result.empty none, c1)

def reconcileOwnedRule (env : Env) (r : RuleReconciler) (c : Cluster)
    (ownedRule : PrometheusRule) : Outcome × Cluster :=
  if !hasOwnerAnnotations ownedRule then
    let c1 := (c.Delete ownedRule { DryRun := [] }).2
    (.ret Result.empty none, c1)
  else
    match c.Get { Name := getOwnerName ownedRule, Namespace := getOwnerNamespace ownedRule } with
    | (.error err, c1) =>
      let c2 := (c1.Delete ownedRule { DryRun := [] }).2
      (.ret Result.empty (IgnoreNotFound err), c2)
    | (.ok watchedRule, c1) =>
      match ruleType env r watchedRule with
      | none => (.panic, c1)
      | some t =>
        if t == ruleTypeIgnore then
          let c2 := (c1.Delete ownedRule { DryRun := [] }).2
          (.ret Result.empty none, c2)
        else updateFromWatched env r c1 ownedRule watchedRule

def reconcileWatchedRule (env : Env) (r : RuleReconciler) (c : Cluster)
    (watchedRule : PrometheusRule) : Outcome × Cluster :=
  match c.List r.ManagedNamespace with
  | (.error err, c1) => (.ret Result.empty (some err), c1)
  | (.ok items, c1) =>
    match items.find? (fun item => isOwndeBy item watchedRule) with
    | none => createNewFromWatched env r c1 watchedRule
    | some ownedRule => updateFromWatched env r c1 ownedRule watchedRule

def Reconcile (env : Env) (r : RuleReconciler) (c : Cluster) (req : Request) :
    Outcome × Cluster :=
  match c.Get req.NamespacedName with
  | (.error err, c1) => (.ret Result.empty (IgnoreNotFound err), c1)
  | (.ok rule, c1) =>
    match ruleType env r rule with
    | none => (.panic, c1)
    | some t =>
      if t == ruleTypeOwned then reconcileOwnedRule env r c1 rule
      else if t == ruleTypeWatched then reconcileWatchedRule env r c1 rule
      else (.ret Result.empty none, c1)

/-! ## A concrete environment

Used to run the reconciler on concrete clusters: regular expressions are
literals (an expression matches the strings that contain it), JSON is a
one-line rendering of the group names, and the default program adds the
label `syn: "true"` to every rule. -/

/-- Whether `pat` occurs in `s` as a contiguous block. -/
def containsSub (pat : List Char) : List Char → Bool
  | [] => pat.isEmpty
  | c :: cs => pat.isPrefixOf (c :: cs) || containsSub pat cs

/-- Split at every line feed. -/
def splitLines : List Char → List (List Char)
  | [] => [[]]
  | c :: cs =>
    match splitLines cs with
    | [] => [[c]]
    | l :: ls => if c = '\n' then [] :: l :: ls else (c :: l) :: ls

/-- Split a `key=value` line at its first equals sign. -/
def splitEq : List Char → List Char × List Char
  | [] => ([], [])
  | c :: cs => if c = '=' then ([], cs) else ((c :: (splitEq cs).1), (splitEq cs).2)

def encodeLabels (labels : Option (List (String × String))) : List (List Char) :=
  match labels with
  | none => []
  | some l => l.map (fun kv => 'l' :: (kv.1.data ++ '=' :: kv.2.data))

def encodeRule (ru : Rule) : List (List Char) :=
  ('a' :: ru.Alert.data) :: ('r' :: ru.Record.data) :: ('e' :: ru.Expr.data) ::
    encodeLabels ru.Labels

def encodeGroup (g : RuleGroup) : List (List Char) :=
  ('g' :: g.Name.data) :: (g.Rules.map encodeRule).flatten

/-- The line-based rendering of a rule spec. -/
def encodeSpec (spec : PrometheusRuleSpec) : String :=
  String.mk (List.intercalate ['\n'] (spec.Groups.map encodeGroup).flatten)

/-- Apply `f` to the last rule of the last group. -/
def onLastRule (f : Rule → Rule) (groups : List RuleGroup) : Option (List RuleGroup) :=
  match groups.reverse with
  | [] => none
  | g :: gs =>
    match g.Rules.reverse with
    | [] => none
    | ru :: rs => some ((({ g with Rules := (f ru :: rs).reverse }) :: gs).reverse)

def addLabel (k v : String) (ru : Rule) : Rule :=
  { ru with Labels := some (ru.Labels.getD [] ++ [(k, v)]) }

/-- Read the lines of a rendering back, left to right. -/
def decodeLines : List (List Char) → List RuleGroup → Option (List RuleGroup)
  | [], groups => some groups
  | [] :: ls, groups => decodeLines ls groups
  | (tag :: rest) :: ls, groups =>
    if tag = 'g' then decodeLines ls (groups ++ [{ Name := String.mk rest, Rules := [] }])
    else if tag = 'a' then
      match groups.reverse with
      | [] => none
      | g :: gs =>
        decodeLines ls
          (({ g with Rules := g.Rules ++ [⟨"", String.mk rest, "", none⟩] }) :: gs).reverse
    else if tag = 'r' then
      (onLastRule (fun ru => { ru with Record := String.mk rest }) groups).bind (decodeLines ls)
    else if tag = 'e' then
      (onLastRule (fun ru => { ru with Expr := String.mk rest }) groups).bind (decodeLines ls)
    else if tag = 'l' then
      (onLastRule (addLabel (String.mk (splitEq rest).1) (String.mk (splitEq rest).2)) groups).bind
        (decodeLines ls)
    else none

def decodeSpec (s : String) : Except Error PrometheusRuleSpec :=
  match decodeLines (splitLines s.data) [] with
  | none => .error (.other "cannot parse rule spec")
  | some groups => .ok { Groups := groups }

/-- The built-in program on the rendering: every rule gets the label `syn=true`.
A rule ends before the next `a` or `g` line and at the end of the text. -/
def addSyn : List (List Char) → Bool → List (List Char)
  | [], inRule => if inRule then ['l' :: "syn=true".data] else []
  | l :: ls, inRule =>
    let close := if inRule && (l.head? = some 'a' || l.head? = some 'g')
                 then ['l' :: "syn=true".data] else []
    close ++ l :: addSyn ls (if l.head? = some 'a' then true
                             else if l.head? = some 'g' then false else inRule)

/-- The concrete environment. Files do not exist; the only program is the
built-in one. -/
def testEnv : Env where
  Compile := fun pat => if pat = "(" then none else some (fun s => containsSub pat.data s.data)
  Marshal := fun spec => .ok (encodeSpec spec)
  ReadFile := fun path => .error (.other ("open " ++ path ++ ": no such file or directory"))
  Evaluate := fun rule _ _ snippet =>
    if snippet = "syn" then .ok (String.mk (List.intercalate ['\n'] (addSyn (splitLines rule.data) false)))
    else .error (.other "RUNTIME ERROR")
  Unmarshal := decodeSpec
  defaultParser := "syn"

/-! ### The objects of the test suite -/

def testSpec : PrometheusRuleSpec :=
  { Groups := [{ Name := "group-name", Rules := [⟨"", "alert-name", "", none⟩] }] }

def testSpecSyn : PrometheusRuleSpec :=
  { Groups := [{ Name := "group-name",
                 Rules := [⟨"", "alert-name", "", some [("syn", "true")]⟩] }] }

def testWatchedRule : PrometheusRule :=
  { ObjectMeta := ⟨"test-rule-01", "watched", "1", none⟩, Spec := testSpec }

def testOtherRule : PrometheusRule :=
  { ObjectMeta := ⟨"test-rule-02", "other", "1", none⟩, Spec := testSpec }

def testManagedRule : PrometheusRule :=
  { ObjectMeta := ⟨"watched-test-rule-01", "managed", "",
      some [(managedRuleOwnerName, "test-rule-01"), (managedRuleOwnerNamespace, "watched")]⟩,
    Spec := testSpecSyn }

def typeWatchedName : Request := ⟨⟨"watched", "test-rule-01"⟩⟩

def typeOtherName : Request := ⟨⟨"other", "test-rule-02"⟩⟩

def typeManagedName : Request := ⟨⟨"managed", "watched-test-rule-01"⟩⟩

/-- The reconciler of the test suite, with the dry-run flag left open. -/
def testReconciler (dryRun : Bool) : RuleReconciler :=
  { ManagedNamespace := "managed", WatchedNamespaces := [], WatchedRegex := "watched",
    DryRun := dryRun, ExternalParser := "", ExternalParams := "" }

/-- Two rules of distinct identity that receive the same owned name. -/
def collideA : PrometheusRule :=
  { ObjectMeta := ⟨"b-c", "a", "1", none⟩, Spec := testSpec }

def collideB : PrometheusRule :=
  { ObjectMeta := ⟨"c", "a-b", "1", none⟩, Spec := testSpec }

/-- A rule in the managed namespace without owner-link annotations. -/
def testUnlinkedRule : PrometheusRule :=
  { ObjectMeta := ⟨"watched-test-rule-01", "managed", "7", some []⟩, Spec := testSpecSyn }

/-- Rules of two namespaces that contain hyphens. -/
def teamARule : PrometheusRule :=
  { ObjectMeta := ⟨"alerts", "team-a", "1", none⟩, Spec := testSpec }

def teamBRule : PrometheusRule :=
  { ObjectMeta := ⟨"alerts", "team-bb", "1", none⟩, Spec := testSpec }

/-- A configuration whose managed namespace is the empty string. -/
def emptyManagedReconciler : RuleReconciler :=
  { ManagedNamespace := "", WatchedNamespaces := [], WatchedRegex := "watched",
    DryRun := false, ExternalParser := "", ExternalParams := "" }

/-- A rule of the namespace `elsewhere` whose annotations name the watched rule
of the test suite as its owner. -/
def elsewhereMirror : PrometheusRule :=
  { ObjectMeta := ⟨"mirror", "elsewhere", "3",
      some [(managedRuleOwnerName, "test-rule-01"), (managedRuleOwnerNamespace, "watched")]⟩,
    Spec := testSpec }

def emptyManagedCluster : Cluster :=
  { objects := [testWatchedRule, elsewhereMirror], faults := [], calls := [] }

/-! ## Notions used in the statements -/

/-- The options built from the dry-run flag by `createNewFromWatched`. -/
def createOpts (r : RuleReconciler) : CreateOptions :=
  if r.DryRun then { DryRun := ["All"] } else { DryRun := [] }

/-- The options built from the dry-run flag by `updateFromWatched`. -/
def updateOpts (r : RuleReconciler) : UpdateOptions :=
  if r.DryRun then { DryRun := ["All"] } else { DryRun := [] }

/-- The metadata built by `parseWatchedRule`. -/
def freshMeta (r : RuleReconciler) (w : PrometheusRule) : ObjectMeta :=
  { Name := hashedName w
    Namespace := r.ManagedNamespace
    ResourceVersion := ""
    Annotations := some [(managedRuleOwnerName, w.GetName),
                         (managedRuleOwnerNamespace, w.GetNamespace)] }

/-- Being a mirror of `w` in the managed namespace depends on the metadata only. -/
def isMirrorOf (r : RuleReconciler) (w o : PrometheusRule) : Bool :=
  o.GetNamespace == r.ManagedNamespace && isOwndeBy o w

/-- The test configuration after the watched expression was changed to `other`. -/
def otherReconciler : RuleReconciler :=
  { ManagedNamespace := "managed", WatchedNamespaces := [], WatchedRegex := "other",
    DryRun := false, ExternalParser := "", ExternalParams := "" }

/-- A managed rule whose spec and resource version differ from what the
transformer yields for the watched rule of the test suite. -/
def testStaleRule : PrometheusRule :=
  { ObjectMeta := ⟨"legacy-name", "managed", "42",
      some [(managedRuleOwnerName, "test-rule-01"), (managedRuleOwnerNamespace, "watched"),
            ("team", "blue")]⟩,
    Spec := { Groups := [{ Name := "old-name", Rules := [] }] } }

/-- The binding `params` of `parseWatchedRuleWithMetadata`: the contents of the
parameter file when one is configured, no binding otherwise. -/
def readParams (env : Env) (r : RuleReconciler) : Except Error (Option String) :=
  if r.ExternalParams != "" then (env.ReadFile r.ExternalParams).map some else .ok none

/-- The program of `parseWatchedRuleWithMetadata`, as name and text: the file at
`ExternalParser` when set, the embedded default otherwise. -/
def readParser (env : Env) (r : RuleReconciler) : Except Error (String × String) :=
  if r.ExternalParser != "" then
    (env.ReadFile r.ExternalParser).map (fun snippet => (r.ExternalParser, snippet))
  else .ok ("default_parser.jsonnet", env.defaultParser)

/-- The test configuration with a parameter file that does not exist. -/
def paramsReconciler : RuleReconciler :=
  { ManagedNamespace := "managed", WatchedNamespaces := [], WatchedRegex := "watched",
    DryRun := false, ExternalParser := "", ExternalParams := "/etc/params.yaml" }

/-! ## main.go

The defaults that `init` registers for the options of the controller, and how
a registered string-slice flag is read back: `init` binds every flag to viper,
which reads a string-slice flag from its text form. -/

def defaultManagedNamespace : String := "default"

/-- The default of `watch-namespace`: the literal `[]string{""}`. -/
def defaultWatchNamespace : List String := [""]

/-- Function `unicode.IsSpace`. -/
def isSpace (c : Char) : Bool :=
  c.toNat == 0x09 || c.toNat == 0x0A || c.toNat == 0x0B || c.toNat == 0x0C ||
  c.toNat == 0x0D || c.toNat == 0x20 || c.toNat == 0x85 || c.toNat == 0xA0 ||
  c.toNat == 0x1680 || (decide (0x2000 ≤ c.toNat) && decide (c.toNat ≤ 0x200A)) ||
  c.toNat == 0x2028 || c.toNat == 0x2029 || c.toNat == 0x202F || c.toNat == 0x205F ||
  c.toNat == 0x3000

/-- The double quote of CSV. -/
def csvQuote : Char := Char.ofNat 34

/-- Method `fieldNeedsQuotes` of `csv.Writer`, the separator being the comma:
the empty field needs none; the field made of a backslash and a dot does; so
does a field with a line feed, carriage return, quote or comma, and a field
that starts with a space. -/
def fieldNeedsQuotes (field : String) : Bool :=
  if field = "" then false
  else if field.data = [Char.ofNat 92, '.'] then true
  else if field.data.any
      (fun c => c.toNat == 0x0A || c.toNat == 0x0D || c == csvQuote || c == ',') then true
  else
    match field.data.head? with
    | some c => isSpace c
    | none => false

/-- One field as `csv.Writer` writes it: as it is, or between quotes with every
quote doubled. -/
def csvField (field : String) : List Char :=
  if fieldNeedsQuotes field then
    csvQuote :: (field.data.map (fun c => if c = csvQuote then [csvQuote, csvQuote] else [c])).flatten
      ++ [csvQuote]
  else field.data

/-- Method `Write` of `csv.Writer` on one record: the fields separated by
commas, then a line feed. -/
def csvWrite (record : List String) : List Char :=
  List.intercalate [','] (record.map csvField) ++ [Char.ofNat 10]

/-- Function `strings.TrimPrefix`. -/
def trimPrefix (s pre : List Char) : List Char :=
  if pre.isPrefixOf s then s.drop pre.length else s

/-- Function `strings.TrimSuffix`. -/
def trimSuffix (s suf : List Char) : List Char :=
  if suf.isSuffixOf s then s.take (s.length - suf.length) else s

/-- Function `writeAsCSV` of pflag: the record without its line end. -/
def writeAsCSV (vals : List String) : String :=
  String.mk (trimSuffix (csvWrite vals) [Char.ofNat 10])

/-- Method `String` of the string-slice flag value of pflag: the text form of
the flag, which is what viper reads. -/
def stringSliceText (vals : List String) : String :=
  "[" ++ writeAsCSV vals ++ "]"

/-- Function `readAsCSV` of viper (and pflag): the empty text is the empty list;
any other text is one CSV record, read by `csvRead` (the reader of
encoding/csv). -/
def readAsCSV (csvRead : String → List String) (val : String) : List String :=
  if val = "" then [] else csvRead val

/-- What `viper.GetStringSlice` returns for a bound string-slice flag with the
text form `text`: the brackets are trimmed and the rest is read as CSV. -/
def viperGetStringSlice (csvRead : String → List String) (text : String) : List String :=
  readAsCSV csvRead (String.mk (trimSuffix (trimPrefix text.data ['[']) [']']))

def defaultWatchRegex : String := ""

def defaultDryRun : Bool := false

def defaultExternalParser : String := ""

def defaultExternalParams : String := ""

/-- Modelled from the spec: package `cmd`, which builds the reconciler from the
options, is not among the sources. Each configuration value of the reconciler
is the value of the option of the same name (sections 3 and 6), as viper
returns it. -/
def reconcilerOfOptions (managedNamespace : String) (watchNamespace : List String)
    (watchRegex : String) (dryRun : Bool) (externalParser externalParams : String) :
    RuleReconciler :=
  { ManagedNamespace := managedNamespace, WatchedNamespaces := watchNamespace,
    WatchedRegex := watchRegex, DryRun := dryRun,
    ExternalParser := externalParser, ExternalParams := externalParams }

/-- The reconciler of a deployment that sets no option: every option has its
registered default, the string-slice option as viper reads it back. -/
def defaultReconciler (csvRead : String → List String) : RuleReconciler :=
  reconcilerOfOptions defaultManagedNamespace
    (viperGetStringSlice csvRead (stringSliceText defaultWatchNamespace)) defaultWatchRegex
    defaultDryRun defaultExternalParser defaultExternalParams

/-- A cluster in which the second request fails with a server timeout. -/
def timeoutCluster : Cluster :=
  { objects := [testWatchedRule, testManagedRule]
    faults := [none, some (.other "etcdserver: request timed out")]
    calls := [] }

/-! ## Basic facts about the embedding -/

theorem issue_calls (c : Cluster) (call : Call) : (c.issue call).calls = c.calls ++ [call] := rfl

theorem issue_objects (c : Cluster) (call : Call) : (c.issue call).objects = c.objects := rfl

theorem Get_snd (c : Cluster) (key : NamespacedName) : (c.Get key).2 = c.issue (.get key) := by
  unfold Cluster.Get
  cases c.fault <;> simp
  cases c.lookup key <;> simp

theorem List_snd (c : Cluster) (ns : String) : (c.List ns).2 = c.issue (.list ns) := by
  unfold Cluster.List
  cases c.fault <;> simp

theorem Create_calls (c : Cluster) (obj : PrometheusRule) (opts : CreateOptions) :
    (c.Create obj opts).2.calls = c.calls ++ [.create obj opts] := by
  unfold Cluster.Create
  cases c.fault <;> simp [issue_calls]
  split_ifs <;> simp [issue_calls]

theorem Update_calls (c : Cluster) (obj : PrometheusRule) (opts : UpdateOptions) :
    (c.Update obj opts).2.calls = c.calls ++ [.update obj opts] := by
  unfold Cluster.Update
  cases c.fault <;> simp [issue_calls]
  split_ifs <;> simp [issue_calls]

theorem Delete_calls (c : Cluster) (obj : PrometheusRule) (opts : DeleteOptions) :
    (c.Delete obj opts).2.calls = c.calls ++ [.delete obj opts] := by
  unfold Cluster.Delete
  cases c.fault <;> simp [issue_calls]
  split_ifs <;> simp [issue_calls]

/-- The source function and the transformer of the specification agree: the
source attaches the given metadata to the transformer's output. -/
theorem parse_eq_transformer (env : Env) (r : RuleReconciler) (w : PrometheusRule)
    (meta : ObjectMeta) :
    parseWatchedRuleWithMetadata env r w meta =
      (transformer env r w.Spec).map (fun s => { ObjectMeta := meta, Spec := s }) := by
  unfold parseWatchedRuleWithMetadata transformer
  cases hm : env.Marshal w.Spec with
  | error e => rfl
  | ok js =>
    by_cases hp : r.ExternalParams = "" <;> by_cases hq : r.ExternalParser = ""
    all_goals simp only [hp, hq, bne_self_eq_false, Bool.false_eq_true, if_false, if_true,
      bne_iff_ne, ne_eq, not_false_eq_true, not_true_eq_false, ite_true, ite_false]
    all_goals simp only [Except.map, bind, Except.bind, pure, Except.pure, Functor.map]
    all_goals cases env.ReadFile r.ExternalParams <;> cases env.ReadFile r.ExternalParser
    all_goals try simp only []
    all_goals repeat' split
    all_goals simp_all

/-- Two texts split at a hyphen agree part by part, unless one first part
followed by a hyphen begins the other first part. -/
theorem append_hyphen_cases (l1 l2 m1 m2 : List Char) (h1 : ¬ (l1 ++ ['-']) <+: l2)
    (h2 : ¬ (l2 ++ ['-']) <+: l1) (h : l1 ++ '-' :: m1 = l2 ++ '-' :: m2) :
    l1 = l2 ∧ m1 = m2 := by
  rcases List.append_eq_append_iff.mp h with ⟨a, ha, hb⟩ | ⟨a, ha, hb⟩
  · cases a with
    | nil =>
      simp at ha hb
      exact ⟨ha.symm, hb⟩
    | cons x a =>
      exfalso
      simp only [List.cons_append, List.cons.injEq] at hb
      apply h1
      rw [ha, ← hb.1]
      exact ⟨a, by simp⟩
  · cases a with
    | nil =>
      simp at ha hb
      exact ⟨ha, hb.symm⟩
    | cons x a =>
      exfalso
      simp only [List.cons_append, List.cons.injEq] at hb
      apply h2
      rw [ha, ← hb.1]
      exact ⟨a, by simp⟩

theorem hashedName_data (r : PrometheusRule) :
    (hashedName r).data = r.GetNamespace.data ++ '-' :: r.GetName.data := by
  simp [hashedName, String.data_append]

theorem Get_eq_of_fst (c : Cluster) (key : NamespacedName) (a : Except Error PrometheusRule)
    (h : (c.Get key).1 = a) : c.Get key = (a, c.issue (.get key)) :=
  Prod.ext h (Get_snd c key)

theorem List_eq_of_fst (c : Cluster) (ns : String) (a : Except Error (List PrometheusRule))
    (h : (c.List ns).1 = a) : c.List ns = (a, c.issue (.list ns)) :=
  Prod.ext h (List_snd c ns)

/-- A delete that the failure script lets through leaves no object under the
key of the deleted rule. -/
theorem Delete_removes (c : Cluster) (obj : PrometheusRule) (h : c.fault = none) :
    (c.Delete obj { DryRun := [] }).2.lookup obj.key = none := by
  unfold Cluster.Delete
  simp only [h]
  cases hl : c.lookup obj.key with
  | none => simpa [Cluster.lookup, Cluster.issue] using hl
  | some o =>
    simp [isDryRun, Cluster.lookup, Cluster.issue, List.find?_eq_none]

/-- The rule of the managed namespace classifies as owned when the watched
expression compiles. -/
theorem ruleType_managed (env : Env) (r : RuleReconciler) (rule : PrometheusRule)
    (hx : (env.Compile r.WatchedRegex).isSome = true)
    (hns : rule.GetNamespace = r.ManagedNamespace) :
    ruleType env r rule = some ruleTypeOwned := by
  unfold ruleType
  cases hc : env.Compile r.WatchedRegex with
  | none => simp [hc] at hx
  | some x => simp [hns]

theorem compile_of_ruleType (env : Env) (r : RuleReconciler) (rule : PrometheusRule)
    (t : String) (h : ruleType env r rule = some t) :
    (env.Compile r.WatchedRegex).isSome = true := by
  unfold ruleType at h
  cases hc : env.Compile r.WatchedRegex with
  | none => simp [hc] at h
  | some x => rfl

/-- Reading the two owner-link annotations written by `parseWatchedRule`. -/
theorem ownerLink_lookup (a b : String) :
    mapGet (some [(managedRuleOwnerName, a), (managedRuleOwnerNamespace, b)])
        managedRuleOwnerName = some a ∧
    mapGet (some [(managedRuleOwnerName, a), (managedRuleOwnerNamespace, b)])
        managedRuleOwnerNamespace = some b := by
  have hne : (managedRuleOwnerNamespace == managedRuleOwnerName) = false := by decide
  simp [mapGet, List.lookup, hne]

theorem createNewFromWatched_eq (env : Env) (r : RuleReconciler) (c : Cluster)
    (w : PrometheusRule) (s : PrometheusRuleSpec) (htr : transformer env r w.Spec = .ok s) :
    createNewFromWatched env r c w
      = (.ret Result.empty (c.Create ⟨freshMeta r w, s⟩ (createOpts r)).1,
          (c.Create ⟨freshMeta r w, s⟩ (createOpts r)).2) := by
  unfold createNewFromWatched parseWatchedRule
  rw [parse_eq_transformer, htr]
  simp only [Except.map]
  change (match c.Create ⟨freshMeta r w, s⟩ (createOpts r) with
    | (some err, c1) => (Outcome.ret Result.empty (some err), c1)
    | (none, c1) => (Outcome.ret Result.empty none, c1)) = _
  rcases c.Create ⟨freshMeta r w, s⟩ (createOpts r) with ⟨_ | e, c1⟩ <;> rfl

theorem updateFromWatched_eq (env : Env) (r : RuleReconciler) (c : Cluster)
    (o w : PrometheusRule) (s : PrometheusRuleSpec) (htr : transformer env r w.Spec = .ok s) :
    updateFromWatched env r c o w
      = (.ret Result.empty (c.Update ⟨o.ObjectMeta, s⟩ (updateOpts r)).1,
          (c.Update ⟨o.ObjectMeta, s⟩ (updateOpts r)).2) := by
  unfold updateFromWatched
  rw [parse_eq_transformer, htr]
  simp only [Except.map]
  change (match c.Update ⟨o.ObjectMeta, s⟩ (updateOpts r) with
    | (some err, c1) => (Outcome.ret Result.empty (some err), c1)
    | (none, c1) => (Outcome.ret Result.empty none, c1)) = _
  rcases c.Update ⟨o.ObjectMeta, s⟩ (updateOpts r) with ⟨_ | e, c1⟩ <;> rfl

theorem List_ok (c : Cluster) (ns : String) (items : List PrometheusRule)
    (h : (c.List ns).1 = .ok items) :
    items = if ns == "" then c.objects
      else c.objects.filter (fun o => o.GetNamespace == ns) := by
  unfold Cluster.List at h
  cases hf : c.fault with
  | some e => simp [hf] at h
  | none => simpa [hf] using h.symm

theorem Create_ok_objects (c : Cluster) (obj : PrometheusRule)
    (h : (c.Create obj { DryRun := [] }).1 = none) :
    (c.Create obj { DryRun := [] }).2.objects = c.objects ++ [obj] := by
  unfold Cluster.Create at h ⊢
  cases hf : c.fault with
  | some e => simp [hf] at h
  | none =>
    by_cases hl : (c.lookup obj.key).isSome = true
    · simp [hf, hl] at h
    · simp [hf, hl, isDryRun]

theorem Update_ok_objects (c : Cluster) (obj : PrometheusRule)
    (h : (c.Update obj { DryRun := [] }).1 = none) :
    (c.Update obj { DryRun := [] }).2.objects
      = c.objects.map (fun o => if o.key == obj.key then obj else o) := by
  unfold Cluster.Update at h ⊢
  cases hf : c.fault with
  | some e => simp [hf] at h
  | none =>
    by_cases hl : (c.lookup obj.key).isNone = true
    · simp [hf, hl] at h
    · simp [hf, hl, isDryRun]

theorem isMirrorOf_meta (r : RuleReconciler) (w o : PrometheusRule) (s : PrometheusRuleSpec) :
    isMirrorOf r w { ObjectMeta := o.ObjectMeta, Spec := s } = isMirrorOf r w o := rfl

/-- Replacing the spec of the object stored under the key of `o` keeps the
number of mirrors of `w`, in a store whose keys are distinct. -/
theorem mirrors_after_update (r : RuleReconciler) (w o : PrometheusRule)
    (s : PrometheusRuleSpec) (l : List PrometheusRule)
    (hkeys : (l.map PrometheusRule.key).Nodup) (ho : o ∈ l) :
    ((l.map (fun x => if x.key == (⟨o.ObjectMeta, s⟩ : PrometheusRule).key
        then ⟨o.ObjectMeta, s⟩ else x)).filter (isMirrorOf r w)).length
      = (l.filter (isMirrorOf r w)).length := by
  rw [List.filter_map, List.length_map]
  congr 1
  apply List.filter_congr
  intro x hx
  simp only [Function.comp]
  by_cases hk : x.key = (⟨o.ObjectMeta, s⟩ : PrometheusRule).key
  · have hxo : x = o := List.inj_on_of_nodup_map hkeys hx ho hk
    subst hxo
    simp only [hk, beq_self_eq_true, if_true]
    exact isMirrorOf_meta r w x s
  · simp [hk]

theorem eq_of_length_le_one {α : Type} (l : List α) (a b : α) (h : l.length ≤ 1)
    (ha : a ∈ l) (hb : b ∈ l) : a = b := by
  match l, h with
  | [x], _ =>
    simp only [List.mem_singleton] at ha hb
    rw [ha, hb]
  | [], _ => simp at ha

/-- A key of a map is present exactly when the association list holds an
entry for it. -/
theorem mapGet_isSome_iff (m : Option (List (String × String))) (k : String) :
    (mapGet m k).isSome = true ↔ ∃ l, m = some l ∧ ∃ v, (k, v) ∈ l := by
  cases m with
  | none => simp [mapGet]
  | some l =>
    simp only [mapGet, List.lookup_isSome_iff, Option.some.injEq, exists_eq_left', beq_iff_eq]
    constructor
    · rintro ⟨⟨k2, v⟩, hp, hk⟩
      exact ⟨v, by simpa [hk] using hp⟩
    · rintro ⟨v, hv⟩
      exact ⟨(k, v), hv, rfl⟩

/-- The source function with its two file reads named. -/
theorem parse_steps (env : Env) (r : RuleReconciler) (w : PrometheusRule) (m : ObjectMeta) :
    parseWatchedRuleWithMetadata env r w m =
      (match env.Marshal w.Spec with
      | .error err => .error err
      | .ok js =>
        match readParams env r with
        | .error err => .error err
        | .ok params =>
          match readParser env r with
          | .error err => .error err
          | .ok (name, snippet) =>
            match env.Evaluate js params name snippet with
            | .error err => .error err
            | .ok output =>
              match env.Unmarshal output with
              | .error err => .error err
              | .ok specs => .ok { ObjectMeta := m, Spec := specs }) := rfl

/-! ## The claims -/

/-- C1. With a watched expression that compiles, `ruleType` returns the first
match of: namespace equal to the managed namespace, owned; namespace in the
watched list, watched; expression non-empty and matching, watched; expression
and list both empty, watched; otherwise ignored. A rule in the managed
namespace is owned whatever the selectors are, and a rule is watched exactly
when its namespace is not the managed one and is selected by the list, the
expression or the both-empty default. -/
theorem ruleType_first_match (env : Env) (r : RuleReconciler) (rule : PrometheusRule)
    (x : String → Bool) (hx : env.Compile r.WatchedRegex = some x) :
    (rule.GetNamespace = r.ManagedNamespace → ruleType env r rule = some ruleTypeOwned) ∧
    (rule.GetNamespace ≠ r.ManagedNamespace → rule.GetNamespace ∈ r.WatchedNamespaces →
      ruleType env r rule = some ruleTypeWatched) ∧
    (rule.GetNamespace ≠ r.ManagedNamespace → rule.GetNamespace ∉ r.WatchedNamespaces →
      r.WatchedRegex ≠ "" → x rule.GetNamespace = true →
      ruleType env r rule = some ruleTypeWatched) ∧
    (rule.GetNamespace ≠ r.ManagedNamespace → rule.GetNamespace ∉ r.WatchedNamespaces →
      ¬ (r.WatchedRegex ≠ "" ∧ x rule.GetNamespace = true) →
      r.WatchedRegex = "" → r.WatchedNamespaces = [] →
      ruleType env r rule = some ruleTypeWatched) ∧
    (rule.GetNamespace ≠ r.ManagedNamespace → rule.GetNamespace ∉ r.WatchedNamespaces →
      ¬ (r.WatchedRegex ≠ "" ∧ x rule.GetNamespace = true) →
      ¬ (r.WatchedRegex = "" ∧ r.WatchedNamespaces = []) →
      ruleType env r rule = some ruleTypeIgnore) ∧
    (ruleType env r rule = some ruleTypeWatched ↔
      rule.GetNamespace ≠ r.ManagedNamespace ∧
        (rule.GetNamespace ∈ r.WatchedNamespaces ∨
         (r.WatchedRegex ≠ "" ∧ x rule.GetNamespace = true) ∨
         (r.WatchedRegex = "" ∧ r.WatchedNamespaces = []))) := by
  have hlen : (r.WatchedNamespaces.length < 1) ↔ r.WatchedNamespaces = [] := by
    cases r.WatchedNamespaces <;> simp
  have e1 : ruleTypeOwned ≠ ruleTypeWatched := by decide
  have e2 : ruleTypeIgnore ≠ ruleTypeWatched := by decide
  unfold ruleType
  simp only [hx]
  by_cases h1 : rule.GetNamespace = r.ManagedNamespace
  · simp [h1, e1]
  by_cases h2 : rule.GetNamespace ∈ r.WatchedNamespaces
  · simp [h1, h2]
  by_cases h3 : r.WatchedRegex = ""
  · by_cases h4 : r.WatchedNamespaces = []
    · simp [h1, h3, h4]
    · simp [h1, h2, h3, h4, hlen, e2]
  · by_cases h5 : x rule.GetNamespace = true
    · simp [h1, h2, h3, h5]
    · simp [h1, h2, h3, h5, e2]

/-- Witness of C1: the watched rule of the test suite under the test
configuration, whose expression `watched` compiles and matches. -/
theorem ruleType_first_match_witness :
    testEnv.Compile (testReconciler false).WatchedRegex
        = some (fun s => containsSub "watched".data s.data) ∧
      ruleType testEnv (testReconciler false) testWatchedRule = some ruleTypeWatched :=
  ⟨rfl, (ruleType_first_match testEnv (testReconciler false) testWatchedRule
      (fun s => containsSub "watched".data s.data) rfl).2.2.1
      (by decide) (by decide) (by decide) (by decide)⟩

/-- C2, the failing input. With `DryRun` set, reconciling a rule of the managed
namespace that has no owner link sends a delete without the dry-run directive,
and the rule is gone from the persisted objects. -/
theorem dryRun_delete_persists :
    (Reconcile testEnv (testReconciler true)
        ⟨[testWatchedRule, testUnlinkedRule], [], []⟩ typeManagedName).1
      = .ret Result.empty none ∧
    (Reconcile testEnv (testReconciler true)
        ⟨[testWatchedRule, testUnlinkedRule], [], []⟩ typeManagedName).2.calls
      = [.get ⟨"managed", "watched-test-rule-01"⟩, .delete testUnlinkedRule ⟨[]⟩] ∧
    (Reconcile testEnv (testReconciler true)
        ⟨[testWatchedRule, testUnlinkedRule], [], []⟩ typeManagedName).2.objects
      = [testWatchedRule] := by
  decide

/-- The sibling paths of C2: with `DryRun` set, the watched arm (list, then
create or update with the dry-run directive) leaves the persisted objects as
they are. -/
theorem dryRun_watched_arm_keeps_objects (env : Env) (r : RuleReconciler) (c : Cluster)
    (w : PrometheusRule) (hdry : r.DryRun = true) :
    (reconcileWatchedRule env r c w).2.objects = c.objects := by
  have hc : ∀ (c1 : Cluster) (obj : PrometheusRule),
      (c1.Create obj { DryRun := ["All"] }).2.objects = c1.objects := by
    intro c1 obj
    unfold Cluster.Create
    cases c1.fault <;> simp [issue_objects]
    split_ifs <;> simp_all [issue_objects, isDryRun]
  have hu : ∀ (c1 : Cluster) (obj : PrometheusRule),
      (c1.Update obj { DryRun := ["All"] }).2.objects = c1.objects := by
    intro c1 obj
    unfold Cluster.Update
    cases c1.fault <;> simp [issue_objects]
    split_ifs <;> simp_all [issue_objects, isDryRun]
  unfold reconcileWatchedRule
  rw [List_eq_of_fst c r.ManagedNamespace _ rfl]
  cases (c.List r.ManagedNamespace).1 with
  | error e => rfl
  | ok items =>
    simp only []
    cases items.find? (fun item => isOwndeBy item w) with
    | none =>
      simp only [createNewFromWatched, hdry, if_true]
      cases parseWatchedRule env r w with
      | error e => rfl
      | ok obj =>
        have := hc (c.issue (.list r.ManagedNamespace)) obj
        simp only []
        rcases hcr : (c.issue (.list r.ManagedNamespace)).Create obj { DryRun := ["All"] }
          with ⟨_ | e, c1⟩ <;> simpa [hcr] using this
    | some o =>
      simp only [updateFromWatched, hdry, if_true]
      cases parseWatchedRuleWithMetadata env r w o.ObjectMeta with
      | error e => rfl
      | ok obj =>
        have := hu (c.issue (.list r.ManagedNamespace)) obj
        simp only []
        rcases hcr : (c.issue (.list r.ManagedNamespace)).Update obj { DryRun := ["All"] }
          with ⟨_ | e, c1⟩ <;> simpa [hcr] using this

/-- C4, the counterexample. The rules `a/b-c` and `a-b/c` have distinct
identities and the same owned name `a-b-c`. -/
theorem hashedName_collision :
    (collideA.GetNamespace, collideA.GetName) ≠ (collideB.GetNamespace, collideB.GetName) ∧
      hashedName collideA = hashedName collideB := by
  decide

/-- C4, amended. Two rules of distinct identity receive distinct owned names
unless the namespace of one, followed by a hyphen, is the beginning of the
namespace of the other. -/
theorem hashedName_injective_unless_prefix (r1 r2 : PrometheusRule)
    (h12 : ¬ (r1.GetNamespace ++ "-").data <+: r2.GetNamespace.data)
    (h21 : ¬ (r2.GetNamespace ++ "-").data <+: r1.GetNamespace.data)
    (hne : (r1.GetNamespace, r1.GetName) ≠ (r2.GetNamespace, r2.GetName)) :
    hashedName r1 ≠ hashedName r2 := by
  intro h
  apply hne
  have hd : r1.GetNamespace.data ++ '-' :: r1.GetName.data
      = r2.GetNamespace.data ++ '-' :: r2.GetName.data := by
    rw [← hashedName_data, ← hashedName_data, h]
  have key := append_hyphen_cases _ _ _ _
    (by simpa [String.data_append] using h12) (by simpa [String.data_append] using h21) hd
  rw [Prod.mk.injEq]
  exact ⟨String.ext key.1, String.ext key.2⟩

/-- Witness of C4 amended: rules of the namespaces `team-a` and `team-bb`,
which contain hyphens and differ in length. -/
theorem hashedName_injective_unless_prefix_witness :
    ¬ (teamARule.GetNamespace ++ "-").data <+: teamBRule.GetNamespace.data ∧
    ¬ (teamBRule.GetNamespace ++ "-").data <+: teamARule.GetNamespace.data ∧
    (teamARule.GetNamespace, teamARule.GetName)
      ≠ (teamBRule.GetNamespace, teamBRule.GetName) ∧
    hashedName teamARule ≠ hashedName teamBRule :=
  ⟨by decide, by decide, by decide,
    hashedName_injective_unless_prefix teamARule teamBRule
      (by decide) (by decide) (by decide)⟩

/-- The condition of C4 amended cannot be dropped: when the namespace of `r1`
followed by a hyphen begins the namespace of `r2`, some rule of the namespace
of `r1` has the owned name of `r2`. -/
theorem hashedName_collision_of_prefix (r1 r2 : PrometheusRule)
    (h : (r1.GetNamespace ++ "-").data <+: r2.GetNamespace.data) :
    ∃ r : PrometheusRule, r.GetNamespace = r1.GetNamespace ∧
      (r.GetNamespace, r.GetName) ≠ (r2.GetNamespace, r2.GetName) ∧
      hashedName r = hashedName r2 := by
  obtain ⟨t, ht⟩ := h
  refine ⟨{ r1 with ObjectMeta := { r1.ObjectMeta with
      Name := String.mk (t ++ '-' :: r2.GetName.data) } }, rfl, ?_, ?_⟩
  · intro heq
    rw [Prod.mk.injEq] at heq
    have hlen := congrArg List.length ht
    have hns : r1.GetNamespace.data = r2.GetNamespace.data := congrArg String.data heq.1
    simp [String.data_append, hns] at hlen
  · apply String.ext
    rw [hashedName_data, hashedName_data, ← ht]
    simp [PrometheusRule.GetNamespace, PrometheusRule.GetName, String.data_append]

/-- C6. A rule of the managed namespace that lacks an owner-link annotation:
reconciling its key fetches it, sends a delete of it and nothing else (no
fetch of a source, no create, no update) and returns success; when the delete
is not failed by the API, no object is left under its key. -/
theorem reconcile_unlinked_deletes (env : Env) (r : RuleReconciler) (c : Cluster)
    (req : Request) (owned : PrometheusRule)
    (hx : (env.Compile r.WatchedRegex).isSome = true)
    (hget : (c.Get req.NamespacedName).1 = .ok owned)
    (hns : owned.GetNamespace = r.ManagedNamespace)
    (hlink : hasOwnerAnnotations owned = false) :
    (Reconcile env r c req).1 = .ret Result.empty none ∧
    (Reconcile env r c req).2.calls
      = c.calls ++ [.get req.NamespacedName, .delete owned { DryRun := [] }] ∧
    ((c.issue (.get req.NamespacedName)).fault = none →
      (Reconcile env r c req).2.lookup owned.key = none) := by
  have hrun : Reconcile env r c req
      = (.ret Result.empty none,
          ((c.issue (.get req.NamespacedName)).Delete owned { DryRun := [] }).2) := by
    simp [Reconcile, Get_eq_of_fst c _ _ hget, ruleType_managed env r owned hx hns,
      reconcileOwnedRule, hlink]
  rw [hrun]
  refine ⟨rfl, ?_, fun hf => Delete_removes _ owned hf⟩
  simp [Delete_calls, issue_calls]

/-- Witness of C6: the unlinked rule of the managed namespace. -/
theorem reconcile_unlinked_deletes_witness :
    (testEnv.Compile (testReconciler false).WatchedRegex).isSome = true ∧
    ((⟨[testWatchedRule, testUnlinkedRule], [], []⟩ : Cluster).Get
        typeManagedName.NamespacedName).1 = .ok testUnlinkedRule ∧
    (Reconcile testEnv (testReconciler false)
        ⟨[testWatchedRule, testUnlinkedRule], [], []⟩ typeManagedName).2.calls
      = [.get ⟨"managed", "watched-test-rule-01"⟩, .delete testUnlinkedRule ⟨[]⟩] :=
  ⟨rfl, rfl,
    (reconcile_unlinked_deletes testEnv (testReconciler false)
      ⟨[testWatchedRule, testUnlinkedRule], [], []⟩ typeManagedName testUnlinkedRule
      rfl rfl rfl rfl).2.1⟩

/-- C7. An owned rule with both owner-link annotations whose source fetch
answers not-found: reconciling its key fetches it, fetches the source, sends
a delete of the owned rule and nothing else (no update) and returns success
with no error; when the delete is not failed by the API, no object is left
under the key of the owned rule. -/
theorem reconcile_orphan_deletes (env : Env) (r : RuleReconciler) (c : Cluster)
    (req : Request) (owned : PrometheusRule)
    (hx : (env.Compile r.WatchedRegex).isSome = true)
    (hget : (c.Get req.NamespacedName).1 = .ok owned)
    (hns : owned.GetNamespace = r.ManagedNamespace)
    (hlink : hasOwnerAnnotations owned = true)
    (hsrc : ((c.issue (.get req.NamespacedName)).Get
        { Name := getOwnerName owned, Namespace := getOwnerNamespace owned }).1
      = .error .notFound) :
    (Reconcile env r c req).1 = .ret Result.empty none ∧
    (Reconcile env r c req).2.calls
      = c.calls ++ [.get req.NamespacedName,
          .get { Name := getOwnerName owned, Namespace := getOwnerNamespace owned },
          .delete owned { DryRun := [] }] ∧
    (((c.issue (.get req.NamespacedName)).issue
        (.get { Name := getOwnerName owned, Namespace := getOwnerNamespace owned })).fault = none →
      (Reconcile env r c req).2.lookup owned.key = none) := by
  have hrun : Reconcile env r c req
      = (.ret Result.empty none,
          (((c.issue (.get req.NamespacedName)).issue
            (.get { Name := getOwnerName owned, Namespace := getOwnerNamespace owned })).Delete
              owned { DryRun := [] }).2) := by
    simp [Reconcile, Get_eq_of_fst c _ _ hget, ruleType_managed env r owned hx hns,
      reconcileOwnedRule, hlink, Get_eq_of_fst _ _ _ hsrc, IgnoreNotFound]
  rw [hrun]
  refine ⟨rfl, ?_, fun hf => Delete_removes _ owned hf⟩
  simp [Delete_calls, issue_calls]

/-- Witness of C7: the managed rule of the test suite after its source was
deleted. -/
theorem reconcile_orphan_deletes_witness :
    ((⟨[testOtherRule, testManagedRule], [], []⟩ : Cluster).Get
        typeManagedName.NamespacedName).1 = .ok testManagedRule ∧
    (((⟨[testOtherRule, testManagedRule], [], []⟩ : Cluster).issue
        (.get typeManagedName.NamespacedName)).Get
        { Name := getOwnerName testManagedRule,
          Namespace := getOwnerNamespace testManagedRule }).1 = .error .notFound ∧
    (Reconcile testEnv (testReconciler false)
        ⟨[testOtherRule, testManagedRule], [], []⟩ typeManagedName).1
      = .ret Result.empty none ∧
    (Reconcile testEnv (testReconciler false)
        ⟨[testOtherRule, testManagedRule], [], []⟩ typeManagedName).2.lookup
        testManagedRule.key = none :=
  ⟨rfl, rfl,
    (reconcile_orphan_deletes testEnv (testReconciler false)
      ⟨[testOtherRule, testManagedRule], [], []⟩ typeManagedName testManagedRule
      rfl rfl rfl rfl rfl).1,
    (reconcile_orphan_deletes testEnv (testReconciler false)
      ⟨[testOtherRule, testManagedRule], [], []⟩ typeManagedName testManagedRule
      rfl rfl rfl rfl rfl).2.2 rfl⟩

/-- C8. An owned rule with both owner-link annotations whose source exists and
classifies as ignored: reconciling its key fetches it, fetches the source,
sends a delete of the owned rule and nothing else (no update), and returns
success whatever the transformer would answer; when the delete is not failed
by the API, no object is left under the key of the owned rule. -/
theorem reconcile_ineligible_deletes (env : Env) (r : RuleReconciler) (c : Cluster)
    (req : Request) (owned source : PrometheusRule)
    (hget : (c.Get req.NamespacedName).1 = .ok owned)
    (hns : owned.GetNamespace = r.ManagedNamespace)
    (hlink : hasOwnerAnnotations owned = true)
    (hsrc : ((c.issue (.get req.NamespacedName)).Get
        { Name := getOwnerName owned, Namespace := getOwnerNamespace owned }).1
      = .ok source)
    (hign : ruleType env r source = some ruleTypeIgnore) :
    (Reconcile env r c req).1 = .ret Result.empty none ∧
    (Reconcile env r c req).2.calls
      = c.calls ++ [.get req.NamespacedName,
          .get { Name := getOwnerName owned, Namespace := getOwnerNamespace owned },
          .delete owned { DryRun := [] }] ∧
    (((c.issue (.get req.NamespacedName)).issue
        (.get { Name := getOwnerName owned, Namespace := getOwnerNamespace owned })).fault = none →
      (Reconcile env r c req).2.lookup owned.key = none) := by
  have hx : (env.Compile r.WatchedRegex).isSome = true := by
    unfold ruleType at hign
    cases hc : env.Compile r.WatchedRegex with
    | none => simp [hc] at hign
    | some x => rfl
  have hrun : Reconcile env r c req
      = (.ret Result.empty none,
          (((c.issue (.get req.NamespacedName)).issue
            (.get { Name := getOwnerName owned, Namespace := getOwnerNamespace owned })).Delete
              owned { DryRun := [] }).2) := by
    simp [Reconcile, Get_eq_of_fst c _ _ hget, ruleType_managed env r owned hx hns,
      reconcileOwnedRule, hlink, Get_eq_of_fst _ _ _ hsrc, hign]
  rw [hrun]
  refine ⟨rfl, ?_, fun hf => Delete_removes _ owned hf⟩
  simp [Delete_calls, issue_calls]

/-- Witness of C8: the managed rule of the test suite once the watched
expression is `other`. -/
theorem reconcile_ineligible_deletes_witness :
    ((⟨[testWatchedRule, testManagedRule], [], []⟩ : Cluster).Get
        typeManagedName.NamespacedName).1 = .ok testManagedRule ∧
    (((⟨[testWatchedRule, testManagedRule], [], []⟩ : Cluster).issue
        (.get typeManagedName.NamespacedName)).Get
        { Name := getOwnerName testManagedRule,
          Namespace := getOwnerNamespace testManagedRule }).1 = .ok testWatchedRule ∧
    ruleType testEnv otherReconciler testWatchedRule = some ruleTypeIgnore ∧
    (Reconcile testEnv otherReconciler
        ⟨[testWatchedRule, testManagedRule], [], []⟩ typeManagedName).1
      = .ret Result.empty none ∧
    (Reconcile testEnv otherReconciler
        ⟨[testWatchedRule, testManagedRule], [], []⟩ typeManagedName).2.lookup
        testManagedRule.key = none :=
  ⟨rfl, rfl, rfl,
    (reconcile_ineligible_deletes testEnv otherReconciler
      ⟨[testWatchedRule, testManagedRule], [], []⟩ typeManagedName testManagedRule
      testWatchedRule rfl rfl rfl rfl rfl).1,
    (reconcile_ineligible_deletes testEnv otherReconciler
      ⟨[testWatchedRule, testManagedRule], [], []⟩ typeManagedName testManagedRule
      testWatchedRule rfl rfl rfl rfl rfl).2.2 rfl⟩

/-- C10. When the fetch of the key answers not-found, and when the fetched
object classifies as ignored, `Reconcile` returns success with no error, the
fetch is the only request it sends (no create, update or delete) and the
persisted objects are unchanged. -/
theorem reconcile_absent_or_ignored_noop (env : Env) (r : RuleReconciler) (c : Cluster)
    (req : Request)
    (h : (c.Get req.NamespacedName).1 = .error .notFound ∨
      ∃ rule, (c.Get req.NamespacedName).1 = .ok rule ∧
        ruleType env r rule = some ruleTypeIgnore) :
    (Reconcile env r c req).1 = .ret Result.empty none ∧
    (Reconcile env r c req).2.calls = c.calls ++ [.get req.NamespacedName] ∧
    (Reconcile env r c req).2.objects = c.objects := by
  have e1 : ruleTypeIgnore ≠ ruleTypeOwned := by decide
  have e2 : ruleTypeIgnore ≠ ruleTypeWatched := by decide
  have hrun : Reconcile env r c req
      = (.ret Result.empty none, c.issue (.get req.NamespacedName)) := by
    rcases h with hnf | ⟨rule, hget, hign⟩
    · simp [Reconcile, Get_eq_of_fst c _ _ hnf, IgnoreNotFound]
    · simp [Reconcile, Get_eq_of_fst c _ _ hget, hign, e1, e2]
  rw [hrun]
  exact ⟨rfl, rfl, rfl⟩

/-- Witness of C10: the out-of-scope rule `other/test-rule-02` of the test
suite. -/
theorem reconcile_absent_or_ignored_noop_witness :
    ((⟨[testWatchedRule, testOtherRule], [], []⟩ : Cluster).Get
        typeOtherName.NamespacedName).1 = .ok testOtherRule ∧
    ruleType testEnv (testReconciler false) testOtherRule = some ruleTypeIgnore ∧
    (Reconcile testEnv (testReconciler false)
        ⟨[testWatchedRule, testOtherRule], [], []⟩ typeOtherName).2.objects
      = [testWatchedRule, testOtherRule] :=
  ⟨rfl, rfl,
    (reconcile_absent_or_ignored_noop testEnv (testReconciler false)
      ⟨[testWatchedRule, testOtherRule], [], []⟩ typeOtherName
      (Or.inr ⟨testOtherRule, rfl, rfl⟩)).2.2⟩

/-- C9. For an owned rule `o` and a source `w` on which the transformer answers
`s`, `updateFromWatched` sends one update, of the object made of the metadata
of `o` as it is (name, namespace, resource version, annotations) and the spec
`s`, whatever the spec of `o` was. Reconciling the key of `w` (the annotation
scan of the managed namespace finds `o`) and reconciling the key of `o` (its
link is present, its source is `w`, and `w` is not ignored) both end with that
same update. -/
theorem update_keeps_metadata (env : Env) (r : RuleReconciler) (o w : PrometheusRule)
    (s : PrometheusRuleSpec) (htr : transformer env r w.Spec = .ok s) :
    (∀ c : Cluster, (updateFromWatched env r c o w).2.calls
      = c.calls ++ [.update { ObjectMeta := o.ObjectMeta, Spec := s }
          (if r.DryRun then { DryRun := ["All"] } else { DryRun := [] })]) ∧
    (∀ (c : Cluster) (req : Request) (items : List PrometheusRule),
      (c.Get req.NamespacedName).1 = .ok w →
      ruleType env r w = some ruleTypeWatched →
      ((c.issue (.get req.NamespacedName)).List r.ManagedNamespace).1 = .ok items →
      items.find? (fun item => isOwndeBy item w) = some o →
      (Reconcile env r c req).2.calls
        = c.calls ++ [.get req.NamespacedName, .list r.ManagedNamespace,
            .update { ObjectMeta := o.ObjectMeta, Spec := s }
              (if r.DryRun then { DryRun := ["All"] } else { DryRun := [] })]) ∧
    (∀ (c : Cluster) (req : Request),
      (c.Get req.NamespacedName).1 = .ok o →
      o.GetNamespace = r.ManagedNamespace →
      hasOwnerAnnotations o = true →
      ((c.issue (.get req.NamespacedName)).Get
        { Name := getOwnerName o, Namespace := getOwnerNamespace o }).1 = .ok w →
      (∃ t, ruleType env r w = some t ∧ t ≠ ruleTypeIgnore) →
      (Reconcile env r c req).2.calls
        = c.calls ++ [.get req.NamespacedName,
            .get { Name := getOwnerName o, Namespace := getOwnerNamespace o },
            .update { ObjectMeta := o.ObjectMeta, Spec := s }
              (if r.DryRun then { DryRun := ["All"] } else { DryRun := [] })]) := by
  have e1 : ruleTypeWatched ≠ ruleTypeOwned := by decide
  refine ⟨fun c => ?_, fun c req items hget hcls hlist hfind => ?_,
    fun c req hget hns hlink hsrc hcls => ?_⟩
  · rw [updateFromWatched_eq env r c o w s htr]
    simp [Update_calls, updateOpts]
  · have hrun : Reconcile env r c req
        = updateFromWatched env r
            ((c.issue (.get req.NamespacedName)).issue (.list r.ManagedNamespace)) o w := by
      simp [Reconcile, Get_eq_of_fst c _ _ hget, hcls, e1, reconcileWatchedRule,
        List_eq_of_fst _ _ _ hlist, hfind]
    rw [hrun, updateFromWatched_eq env r _ o w s htr]
    simp [Update_calls, issue_calls, updateOpts]
  · obtain ⟨t, ht, hne⟩ := hcls
    have hx := compile_of_ruleType env r w t ht
    have hrun : Reconcile env r c req
        = updateFromWatched env r
            ((c.issue (.get req.NamespacedName)).issue
              (.get { Name := getOwnerName o, Namespace := getOwnerNamespace o })) o w := by
      simp [Reconcile, Get_eq_of_fst c _ _ hget, ruleType_managed env r o hx hns,
        reconcileOwnedRule, hlink, Get_eq_of_fst _ _ _ hsrc, ht, hne]
    rw [hrun, updateFromWatched_eq env r _ o w s htr]
    simp [Update_calls, issue_calls, updateOpts]

/-- Witness of C9: a stale managed rule under a legacy name is overwritten
with the transformed spec and keeps its name, resource version and extra
annotation, from either key. -/
theorem update_keeps_metadata_witness :
    transformer testEnv (testReconciler false) testWatchedRule.Spec = .ok testSpecSyn ∧
    (Reconcile testEnv (testReconciler false)
        ⟨[testWatchedRule, testStaleRule], [], []⟩ typeWatchedName).2.calls
      = [.get ⟨"watched", "test-rule-01"⟩, .list "managed",
          .update ⟨testStaleRule.ObjectMeta, testSpecSyn⟩ ⟨[]⟩] ∧
    (Reconcile testEnv (testReconciler false)
        ⟨[testWatchedRule, testStaleRule], [], []⟩ ⟨⟨"managed", "legacy-name"⟩⟩).2.calls
      = [.get ⟨"managed", "legacy-name"⟩, .get ⟨"watched", "test-rule-01"⟩,
          .update ⟨testStaleRule.ObjectMeta, testSpecSyn⟩ ⟨[]⟩] :=
  ⟨rfl,
    (update_keeps_metadata testEnv (testReconciler false) testStaleRule testWatchedRule
      testSpecSyn rfl).2.1 ⟨[testWatchedRule, testStaleRule], [], []⟩ typeWatchedName
      [testStaleRule] rfl rfl rfl rfl,
    (update_keeps_metadata testEnv (testReconciler false) testStaleRule testWatchedRule
      testSpecSyn rfl).2.2 ⟨[testWatchedRule, testStaleRule], [], []⟩
      ⟨⟨"managed", "legacy-name"⟩⟩ rfl rfl rfl rfl ⟨ruleTypeWatched, rfl, by decide⟩⟩

/-- C5, the counterexample. The managed namespace is the empty string, so the
list of the managed namespace covers every namespace. The store holds the
watched rule and a rule of the namespace `elsewhere` that is owned by it; the
managed namespace holds no rule owned by the watched rule. `Reconcile` of the
watched key returns success, having updated the rule in `elsewhere`, and the
managed namespace still holds no rule owned by the watched rule. -/
theorem reconcile_watched_empty_managed_namespace :
    (emptyManagedCluster.objects.map PrometheusRule.key).Nodup ∧
    (emptyManagedCluster.Get typeWatchedName.NamespacedName).1 = .ok testWatchedRule ∧
    ruleType testEnv emptyManagedReconciler testWatchedRule = some ruleTypeWatched ∧
    emptyManagedReconciler.DryRun = false ∧
    (emptyManagedCluster.objects.filter
      (isMirrorOf emptyManagedReconciler testWatchedRule)).length ≤ 1 ∧
    (Reconcile testEnv emptyManagedReconciler emptyManagedCluster typeWatchedName).1
      = .ret Result.empty none ∧
    (Reconcile testEnv emptyManagedReconciler emptyManagedCluster typeWatchedName).2.calls
      = [.get ⟨"watched", "test-rule-01"⟩, .list "",
          .update ⟨elsewhereMirror.ObjectMeta, testSpecSyn⟩ ⟨[]⟩] ∧
    ((Reconcile testEnv emptyManagedReconciler emptyManagedCluster
        typeWatchedName).2.objects.filter
      (isMirrorOf emptyManagedReconciler testWatchedRule)).length = 0 := by
  refine ⟨by decide, rfl, rfl, rfl, by decide, rfl, rfl, by decide⟩

/-- C5, amended. A source `w` fetched under its key and classified watched,
dry-run off, a store with distinct keys in which at most one rule of the
managed namespace is owned by `w`, and a managed namespace that is not the
empty string (or, when it is, no rule outside it is owned by `w`): after a
`Reconcile` that returns success, exactly one rule of the managed namespace is
owned by `w`. When such a rule `o` was present, the requests are the fetch,
the list and one update of `o` (no create); when none was present, they are
the fetch, the list and one create, of a rule owned by `w` that the store now
holds. -/
theorem reconcile_watched_exactly_one (env : Env) (r : RuleReconciler) (c : Cluster)
    (req : Request) (w : PrometheusRule)
    (hscope : r.ManagedNamespace ≠ "" ∨
      ∀ o ∈ c.objects, isOwndeBy o w = true → o.GetNamespace = r.ManagedNamespace)
    (hkeys : (c.objects.map PrometheusRule.key).Nodup)
    (hget : (c.Get req.NamespacedName).1 = .ok w)
    (hcls : ruleType env r w = some ruleTypeWatched)
    (hdry : r.DryRun = false)
    (hmost : (c.objects.filter (isMirrorOf r w)).length ≤ 1)
    (hok : (Reconcile env r c req).1 = .ret Result.empty none) :
    ((Reconcile env r c req).2.objects.filter (isMirrorOf r w)).length = 1 ∧
    (∀ o ∈ c.objects, isMirrorOf r w o = true →
      ∃ s, transformer env r w.Spec = .ok s ∧
        (Reconcile env r c req).2.calls
          = c.calls ++ [.get req.NamespacedName, .list r.ManagedNamespace,
              .update { ObjectMeta := o.ObjectMeta, Spec := s } { DryRun := [] }]) ∧
    ((∀ o ∈ c.objects, isMirrorOf r w o = false) →
      ∃ obj, isMirrorOf r w obj = true ∧
        (Reconcile env r c req).2.calls
          = c.calls ++ [.get req.NamespacedName, .list r.ManagedNamespace,
              .create obj { DryRun := [] }] ∧
        (Reconcile env r c req).2.objects = c.objects ++ [obj]) := by
  have e1 : ruleTypeWatched ≠ ruleTypeOwned := by decide
  have hrun : Reconcile env r c req
      = reconcileWatchedRule env r (c.issue (.get req.NamespacedName)) w := by
    simp [Reconcile, Get_eq_of_fst c _ _ hget, hcls, e1]
  rw [hrun] at hok ⊢
  -- the list request answers
  cases hl : ((c.issue (.get req.NamespacedName)).List r.ManagedNamespace).1 with
  | error e => simp [reconcileWatchedRule, List_eq_of_fst _ _ _ hl] at hok
  | ok items =>
  have hitems := List_ok _ _ _ hl
  rw [issue_objects] at hitems
  have hsub : ∀ o ∈ items, o ∈ c.objects := by
    intro o ho
    rw [hitems] at ho
    split at ho
    · exact ho
    · exact (List.mem_filter.mp ho).1
  have hcov : ∀ o ∈ c.objects, o.GetNamespace = r.ManagedNamespace → o ∈ items := by
    intro o ho hns
    rw [hitems]
    split
    · exact ho
    · exact List.mem_filter.mpr ⟨ho, by simp [hns]⟩
  have hin : ∀ o ∈ items, isOwndeBy o w = true → o.GetNamespace = r.ManagedNamespace := by
    intro o ho hown
    by_cases hm : r.ManagedNamespace = ""
    · rcases hscope with hne | hall
      · exact absurd hm hne
      · exact hall o (hsub o ho) hown
    · rw [hitems] at ho
      simp only [beq_iff_eq, hm, if_false] at ho
      simpa using (List.mem_filter.mp ho).2
  -- the transformer answers
  cases htr : transformer env r w.Spec with
  | error e =>
    exfalso
    have hp : ∀ m, parseWatchedRuleWithMetadata env r w m = .error e := by
      intro m
      rw [parse_eq_transformer, htr]
      rfl
    simp only [reconcileWatchedRule, List_eq_of_fst _ _ _ hl] at hok
    split at hok <;>
      simp [createNewFromWatched, updateFromWatched, parseWatchedRule, hp] at hok
  | ok s =>
  have hopts : updateOpts r = { DryRun := [] } := by simp [updateOpts, hdry]
  have hcopts : createOpts r = { DryRun := [] } := by simp [createOpts, hdry]
  cases hfind : items.find? (fun item => isOwndeBy item w) with
  | none =>
    have hstep : reconcileWatchedRule env r (c.issue (.get req.NamespacedName)) w
        = createNewFromWatched env r
            ((c.issue (.get req.NamespacedName)).issue (.list r.ManagedNamespace)) w := by
      simp [reconcileWatchedRule, List_eq_of_fst _ _ _ hl, hfind]
    rw [hstep, createNewFromWatched_eq env r _ w s htr, hcopts] at hok ⊢
    have hcreated := Create_ok_objects _ _ (by simpa using hok)
    have hnone : ∀ o ∈ c.objects, isMirrorOf r w o = false := by
      intro o ho
      rw [List.find?_eq_none] at hfind
      by_cases hns : o.GetNamespace = r.ManagedNamespace
      · have := hfind o (hcov o ho hns)
        simp [isMirrorOf, this]
      · simp [isMirrorOf, hns]
    have hfresh : isMirrorOf r w ⟨freshMeta r w, s⟩ = true := by
      simp [isMirrorOf, isOwndeBy, getOwnerName, getOwnerNamespace,
        PrometheusRule.GetAnnotations, PrometheusRule.GetNamespace, freshMeta,
        ownerLink_lookup]
    have hzero : c.objects.filter (isMirrorOf r w) = [] := by
      rw [List.filter_eq_nil_iff]
      intro o ho
      simp [hnone o ho]
    refine ⟨?_, ?_, ?_⟩
    · simp only [hcreated, issue_objects, List.filter_append, hzero]
      simp [List.filter, hfresh]
    · intro o ho hm
      rw [hnone o ho] at hm
      exact absurd hm (by simp)
    · intro _
      refine ⟨⟨freshMeta r w, s⟩, hfresh, ?_, ?_⟩
      · simp [Create_calls, issue_calls]
      · simpa [issue_objects] using hcreated
  | some o =>
    have hstep : reconcileWatchedRule env r (c.issue (.get req.NamespacedName)) w
        = updateFromWatched env r
            ((c.issue (.get req.NamespacedName)).issue (.list r.ManagedNamespace)) o w := by
      simp [reconcileWatchedRule, List_eq_of_fst _ _ _ hl, hfind]
    rw [hstep, updateFromWatched_eq env r _ o w s htr, hopts] at hok ⊢
    have hupdated := Update_ok_objects _ _ (by simpa using hok)
    have ho_items : o ∈ items := List.mem_of_find?_eq_some hfind
    have ho_owned : isOwndeBy o w = true := by simpa using List.find?_some hfind
    have ho_obj : o ∈ c.objects := hsub o ho_items
    have ho_mirror : isMirrorOf r w o = true := by
      simp only [isMirrorOf, Bool.and_eq_true]
      exact ⟨by simp [hin o ho_items ho_owned], ho_owned⟩
    have ho_mem : o ∈ c.objects.filter (isMirrorOf r w) :=
      List.mem_filter.mpr ⟨ho_obj, ho_mirror⟩
    have hcount : ((c.objects.map (fun x =>
        if x.key == (⟨o.ObjectMeta, s⟩ : PrometheusRule).key then ⟨o.ObjectMeta, s⟩ else x)).filter
          (isMirrorOf r w)).length = (c.objects.filter (isMirrorOf r w)).length :=
      mirrors_after_update r w o s c.objects hkeys ho_obj
    refine ⟨?_, ?_, ?_⟩
    · simp only [hupdated, issue_objects]
      rw [hcount]
      have : 0 < (c.objects.filter (isMirrorOf r w)).length := List.length_pos_of_mem ho_mem
      omega
    · intro o2 ho2 hm2
      have heq : o2 = o :=
        eq_of_length_le_one _ o2 o hmost (List.mem_filter.mpr ⟨ho2, hm2⟩) ho_mem
      subst heq
      exact ⟨s, rfl, by simp [Update_calls, issue_calls]⟩
    · intro hnone
      rw [hnone o ho_obj] at ho_mirror
      exact absurd ho_mirror (by simp)

/-- Witness of C5 amended: the first scenario of the test suite (no mirror yet) and a
store with a stale mirror; afterwards the managed namespace holds exactly one
rule owned by the watched rule. -/
theorem reconcile_watched_exactly_one_witness :
    (testReconciler false).ManagedNamespace ≠ "" ∧
    ((⟨[testWatchedRule, testOtherRule], [], []⟩ : Cluster).objects.map
        PrometheusRule.key).Nodup ∧
    ((⟨[testWatchedRule, testOtherRule], [], []⟩ : Cluster).Get
        typeWatchedName.NamespacedName).1 = .ok testWatchedRule ∧
    ruleType testEnv (testReconciler false) testWatchedRule = some ruleTypeWatched ∧
    (Reconcile testEnv (testReconciler false)
        ⟨[testWatchedRule, testOtherRule], [], []⟩ typeWatchedName).1
      = .ret Result.empty none ∧
    ((Reconcile testEnv (testReconciler false)
        ⟨[testWatchedRule, testOtherRule], [], []⟩ typeWatchedName).2.objects.filter
        (isMirrorOf (testReconciler false) testWatchedRule)).length = 1 ∧
    ((Reconcile testEnv (testReconciler false)
        ⟨[testWatchedRule, testStaleRule], [], []⟩ typeWatchedName).2.objects.filter
        (isMirrorOf (testReconciler false) testWatchedRule)).length = 1 :=
  ⟨by decide, by decide, rfl, rfl, rfl,
    (reconcile_watched_exactly_one testEnv (testReconciler false)
      ⟨[testWatchedRule, testOtherRule], [], []⟩ typeWatchedName testWatchedRule
      (Or.inl (by decide)) (by decide) rfl rfl rfl (by decide) rfl).1,
    (reconcile_watched_exactly_one testEnv (testReconciler false)
      ⟨[testWatchedRule, testStaleRule], [], []⟩ typeWatchedName testWatchedRule
      (Or.inl (by decide)) (by decide) rfl rfl rfl (by decide) rfl).1⟩

/-- C11. `hasOwnerAnnotations` holds exactly when the annotation map of the rule
has an entry for each of the two owner-link keys, whatever the values are: a
map whose two entries hold the empty string has the link, a nil map and an
empty map do not. -/
theorem hasOwnerAnnotations_iff (r : PrometheusRule) :
    (hasOwnerAnnotations r = true ↔
      ∃ l, r.GetAnnotations = some l ∧
        (∃ v, ("managedrules.appuio.io/upstream-rule-name", v) ∈ l) ∧
        (∃ v, ("managedrules.appuio.io/upstream-rule-namespace", v) ∈ l)) ∧
    (∀ l, r.GetAnnotations = some l →
      ("managedrules.appuio.io/upstream-rule-name", "") ∈ l →
      ("managedrules.appuio.io/upstream-rule-namespace", "") ∈ l →
      hasOwnerAnnotations r = true) ∧
    (r.GetAnnotations = none → hasOwnerAnnotations r = false) ∧
    (r.GetAnnotations = some [] → hasOwnerAnnotations r = false) := by
  have hiff : hasOwnerAnnotations r = true ↔
      ∃ l, r.GetAnnotations = some l ∧
        (∃ v, ("managedrules.appuio.io/upstream-rule-name", v) ∈ l) ∧
        (∃ v, ("managedrules.appuio.io/upstream-rule-namespace", v) ∈ l) := by
    simp only [hasOwnerAnnotations, Bool.and_eq_true, mapGet_isSome_iff,
      managedRuleOwnerName, managedRuleOwnerNamespace]
    constructor
    · rintro ⟨⟨l, hl, h1⟩, ⟨l2, hl2, h2⟩⟩
      rw [hl] at hl2
      cases hl2
      exact ⟨l, hl, h1, h2⟩
    · rintro ⟨l, hl, h1, h2⟩
      exact ⟨⟨l, hl, h1⟩, ⟨l, hl, h2⟩⟩
  refine ⟨hiff, ?_, ?_, ?_⟩
  · intro l hl h1 h2
    exact hiff.mpr ⟨l, hl, ⟨"", h1⟩, ⟨"", h2⟩⟩
  · intro hnil
    simp [hasOwnerAnnotations, hnil, mapGet]
  · intro hempty
    simp [hasOwnerAnnotations, hempty, mapGet]

/-- Witness of C11: the unlinked rule (empty map) has no link, the managed rule
of the test suite has it. -/
theorem hasOwnerAnnotations_iff_witness :
    testUnlinkedRule.GetAnnotations = some [] ∧
    hasOwnerAnnotations testUnlinkedRule = false ∧
    hasOwnerAnnotations testManagedRule = true :=
  ⟨rfl, (hasOwnerAnnotations_iff testUnlinkedRule).2.2.2 rfl,
    (hasOwnerAnnotations_iff testManagedRule).1.mpr
      ⟨_, rfl, ⟨"test-rule-01", by decide⟩, ⟨"watched", by decide⟩⟩⟩

/-- C12. `isOwndeBy owned watched` holds exactly when the pair read by
`getOwnerName` and `getOwnerNamespace` from `owned` is the name and namespace
of `watched`; each getter returns the value stored under its annotation key,
and the empty string when the key has no entry. -/
theorem isOwndeBy_iff (owned watched : PrometheusRule) :
    (isOwndeBy owned watched = true ↔
      (getOwnerName owned, getOwnerNamespace owned)
        = (watched.GetName, watched.GetNamespace)) ∧
    (∀ v, mapGet owned.GetAnnotations "managedrules.appuio.io/upstream-rule-name" = some v →
      getOwnerName owned = v) ∧
    (∀ v, mapGet owned.GetAnnotations "managedrules.appuio.io/upstream-rule-namespace" = some v →
      getOwnerNamespace owned = v) ∧
    ((¬ ∃ l, owned.GetAnnotations = some l ∧
        ∃ v, ("managedrules.appuio.io/upstream-rule-name", v) ∈ l) →
      getOwnerName owned = "") ∧
    ((¬ ∃ l, owned.GetAnnotations = some l ∧
        ∃ v, ("managedrules.appuio.io/upstream-rule-namespace", v) ∈ l) →
      getOwnerNamespace owned = "") := by
  refine ⟨?_, ?_, ?_, ?_, ?_⟩
  · simp [isOwndeBy]
  · intro v hv
    simp [getOwnerName, managedRuleOwnerName, hv]
  · intro v hv
    simp [getOwnerNamespace, managedRuleOwnerNamespace, hv]
  · intro hno
    rw [← mapGet_isSome_iff] at hno
    cases h : mapGet owned.GetAnnotations "managedrules.appuio.io/upstream-rule-name" with
    | none => simp [getOwnerName, managedRuleOwnerName, h]
    | some v => simp [h] at hno
  · intro hno
    rw [← mapGet_isSome_iff] at hno
    cases h : mapGet owned.GetAnnotations "managedrules.appuio.io/upstream-rule-namespace" with
    | none => simp [getOwnerNamespace, managedRuleOwnerNamespace, h]
    | some v => simp [h] at hno

/-- Witness of C12: the managed rule of the test suite is owned by the watched
rule, and the getters read the empty string from the unlinked rule. -/
theorem isOwndeBy_iff_witness :
    isOwndeBy testManagedRule testWatchedRule = true ∧
    getOwnerName testManagedRule = "test-rule-01" ∧
    getOwnerName testUnlinkedRule = "" :=
  ⟨(isOwndeBy_iff testManagedRule testWatchedRule).1.mpr (by decide),
    (isOwndeBy_iff testManagedRule testWatchedRule).2.1 "test-rule-01" rfl,
    (isOwndeBy_iff testUnlinkedRule testWatchedRule).2.2.2.1
      (by simp [PrometheusRule.GetAnnotations, testUnlinkedRule])⟩

/-- C13. When a step of the transformer fails with `e` on the spec of `w`
(serialising the spec, reading the configured parameter file, reading the
configured parser file, evaluating the program, or parsing its output), then
`createNewFromWatched` and `updateFromWatched` return `e` as the reconcile
error and leave the cluster as it was: no request is sent, so no create and
no update, and the persisted objects are unchanged. -/
theorem transformer_failure_surfaces (env : Env) (r : RuleReconciler) (c : Cluster)
    (o w : PrometheusRule) (e : Error)
    (hfail :
      env.Marshal w.Spec = .error e ∨
      (∃ js, env.Marshal w.Spec = .ok js ∧
        r.ExternalParams ≠ "" ∧ env.ReadFile r.ExternalParams = .error e) ∨
      (∃ js params, env.Marshal w.Spec = .ok js ∧ readParams env r = .ok params ∧
        r.ExternalParser ≠ "" ∧ env.ReadFile r.ExternalParser = .error e) ∨
      (∃ js params name snippet, env.Marshal w.Spec = .ok js ∧
        readParams env r = .ok params ∧ readParser env r = .ok (name, snippet) ∧
        env.Evaluate js params name snippet = .error e) ∨
      (∃ js params name snippet output, env.Marshal w.Spec = .ok js ∧
        readParams env r = .ok params ∧ readParser env r = .ok (name, snippet) ∧
        env.Evaluate js params name snippet = .ok output ∧
        env.Unmarshal output = .error e)) :
    createNewFromWatched env r c w = (.ret Result.empty (some e), c) ∧
    updateFromWatched env r c o w = (.ret Result.empty (some e), c) ∧
    (createNewFromWatched env r c w).2.calls = c.calls ∧
    (updateFromWatched env r c o w).2.calls = c.calls ∧
    (createNewFromWatched env r c w).2.objects = c.objects ∧
    (updateFromWatched env r c o w).2.objects = c.objects := by
  have hparse : ∀ m, parseWatchedRuleWithMetadata env r w m = .error e := by
    intro m
    rw [parse_steps]
    rcases hfail with h | ⟨js, hm, hp, hr⟩ | ⟨js, params, hm, hp, hq, hr⟩ |
      ⟨js, params, name, snippet, hm, hp, hq, he⟩ |
      ⟨js, params, name, snippet, output, hm, hp, hq, he, hu⟩
    · simp only [h]
    · have hrp : readParams env r = .error e := by
        simp [readParams, hp, hr, Except.map]
      simp only [hm, hrp]
    · have hrq : readParser env r = .error e := by
        simp [readParser, hq, hr, Except.map]
      simp only [hm, hp, hrq]
    · simp only [hm, hp, hq, he]
    · simp only [hm, hp, hq, he, hu]
  have h1 : createNewFromWatched env r c w = (.ret Result.empty (some e), c) := by
    simp [createNewFromWatched, parseWatchedRule, hparse]
  have h2 : updateFromWatched env r c o w = (.ret Result.empty (some e), c) := by
    simp [updateFromWatched, hparse]
  rw [h1, h2]
  exact ⟨rfl, rfl, rfl, rfl, rfl, rfl⟩

/-- Witness of C13: a configured parameter file that cannot be read. -/
theorem transformer_failure_surfaces_witness :
    testEnv.Marshal testWatchedRule.Spec = .ok (encodeSpec testSpec) ∧
    paramsReconciler.ExternalParams ≠ "" ∧
    testEnv.ReadFile paramsReconciler.ExternalParams
      = .error (.other "open /etc/params.yaml: no such file or directory") ∧
    createNewFromWatched testEnv paramsReconciler ⟨[testWatchedRule], [], []⟩ testWatchedRule
      = (.ret Result.empty (some (.other "open /etc/params.yaml: no such file or directory")),
          ⟨[testWatchedRule], [], []⟩) :=
  ⟨rfl, by decide, rfl,
    (transformer_failure_surfaces testEnv paramsReconciler ⟨[testWatchedRule], [], []⟩
      testManagedRule testWatchedRule
      (.other "open /etc/params.yaml: no such file or directory")
      (Or.inr (Or.inl ⟨encodeSpec testSpec, rfl, by decide, rfl⟩))).1⟩

/-- The open-by-default case of the classifier: with an empty list and an
empty expression, every rule outside the managed namespace is watched. -/
theorem ruleType_open_by_default (env : Env) (r : RuleReconciler) (rule : PrometheusRule)
    (hx : (env.Compile r.WatchedRegex).isSome = true)
    (hlist : r.WatchedNamespaces = []) (hregex : r.WatchedRegex = "")
    (hns : rule.GetNamespace ≠ r.ManagedNamespace) :
    ruleType env r rule = some ruleTypeWatched := by
  unfold ruleType
  cases hc : env.Compile r.WatchedRegex with
  | none => simp [hc] at hx
  | some x => simp [hns, hlist, hregex]

/-- C14. The registered default of `watch-namespace`, the literal holding one
empty string, has the text form `[]` and is read back as the empty list. So
the reconciler of a deployment that sets no option has an empty list and an
empty expression, the open-by-default case applies, and every rule outside
the managed namespace classifies as watched. -/
theorem default_options_watch_everything (csvRead : String → List String) (env : Env)
    (rule : PrometheusRule)
    (hx : (env.Compile (defaultReconciler csvRead).WatchedRegex).isSome = true)
    (hns : rule.GetNamespace ≠ (defaultReconciler csvRead).ManagedNamespace) :
    stringSliceText defaultWatchNamespace = "[]" ∧
    viperGetStringSlice csvRead (stringSliceText defaultWatchNamespace) = [] ∧
    (defaultReconciler csvRead).WatchedNamespaces = [] ∧
    (defaultReconciler csvRead).WatchedRegex = "" ∧
    ruleType env (defaultReconciler csvRead) rule = some ruleTypeWatched := by
  have htext : stringSliceText defaultWatchNamespace = "[]" := by decide
  have hread : viperGetStringSlice csvRead (stringSliceText defaultWatchNamespace) = [] := by
    rw [htext]
    rfl
  have hlist : (defaultReconciler csvRead).WatchedNamespaces = [] := hread
  exact ⟨htext, hread, hlist, rfl,
    ruleType_open_by_default env (defaultReconciler csvRead) rule hx hlist rfl hns⟩

/-- Witness of C14: the watched rule of the test suite in a deployment that
sets no option. -/
theorem default_options_watch_everything_witness :
    (testEnv.Compile (defaultReconciler (fun _ => [])).WatchedRegex).isSome = true ∧
    testWatchedRule.GetNamespace ≠ (defaultReconciler (fun _ => [])).ManagedNamespace ∧
    ruleType testEnv (defaultReconciler (fun _ => [])) testWatchedRule
      = some ruleTypeWatched :=
  ⟨rfl, by decide,
    (default_options_watch_everything (fun _ => []) testEnv testWatchedRule rfl
      (by decide)).2.2.2.2⟩

/-- C15, the failing input. The owned rule `managed/watched-test-rule-01` is
linked to the existing source `watched/test-rule-01`; the fetch of the source
fails with a server timeout. `Reconcile` returns the timeout, and before that
it sends a delete of the owned rule, which is gone from the persisted
objects. -/
theorem fetch_error_deletes_owned :
    (Reconcile testEnv (testReconciler false) timeoutCluster typeManagedName).1
      = .ret Result.empty (some (.other "etcdserver: request timed out")) ∧
    (Reconcile testEnv (testReconciler false) timeoutCluster typeManagedName).2.calls
      = [.get ⟨"managed", "watched-test-rule-01"⟩, .get ⟨"watched", "test-rule-01"⟩,
          .delete testManagedRule ⟨[]⟩] ∧
    (Reconcile testEnv (testReconciler false) timeoutCluster typeManagedName).2.objects
      = [testWatchedRule] := by
  decide

end ManagedRules
